import Mathlib

/-!
Verification of the data-fetch and identifier-matching pipeline of the
project-file-fetch repository.

The embedding models the Python sources:
  request_api.py : RentmanClient.get_serial_number_info, extract_serial_ids,
                   self contained helpers fetch_all_pages and extract_items
  app.py         : the match-set construction in display_results, the
                   file matching and copying loop in copy_files, and the
                   session state read by on_copy.

JSON / Python values are modelled by the inductive type PyVal; Python dicts
become association lists (keys unique in practice, lookup takes the first
binding, matching dict semantics); Python sets of strings become lists with
membership-guarded insertion; HTTP traffic is modelled by a response
function from request number (or page offset) to a status code and a JSON
body; a raised requests.HTTPError is modelled by Except.error carrying the
status code.
-/

namespace ProjectFileFetch

/-- A Python/JSON value as it appears in API responses: None, bools, ints,
strings, lists, and dicts with string keys. -/
inductive PyVal where
  | vNone : PyVal
  | vBool (b : Bool) : PyVal
  | vInt (n : Int) : PyVal
  | vStr (s : String) : PyVal
  | vList (vs : List PyVal) : PyVal
  | vDict (entries : List (String × PyVal)) : PyVal

mutual

/-- Python repr of a value (quotes written via escape); containers render
their elements recursively, mirroring CPython output shape. -/
def pyRepr : PyVal → String
  | .vNone => "None"
  | .vBool b => if b then "True" else "False"
  | .vInt n => toString n
  | .vStr s => "\x27" ++ s ++ "\x27"
  | .vList vs => "[" ++ pyReprListInner vs ++ "]"
  | .vDict es => "\x7b" ++ pyReprDictInner es ++ "\x7d"

/-- Comma-joined reprs of the elements of a list. -/
def pyReprListInner : List PyVal → String
  | [] => ""
  | [v] => pyRepr v
  | v :: rest => pyRepr v ++ ", " ++ pyReprListInner rest

/-- Comma-joined reprs of the entries of a dict. -/
def pyReprDictInner : List (String × PyVal) → String
  | [] => ""
  | [(k, v)] => "\x27" ++ k ++ "\x27: " ++ pyRepr v
  | (k, v) :: rest => "\x27" ++ k ++ "\x27: " ++ pyRepr v ++ ", " ++ pyReprDictInner rest

end

/-- Python str() of a value: a string is itself, everything else falls back
to its repr (this matches CPython for ints, bools, None and containers). -/
def pyStr : PyVal → String
  | .vStr s => s
  | v => pyRepr v

/-- Python dict.get on an association list: the value of the first binding
of the key, if any. -/
def dictGet (d : List (String × PyVal)) (k : String) : Option PyVal :=
  (d.find? (fun e => e.1 = k)).map (fun e => e.2)

/-- The envelope keys probed by extract_items in request_api.py
(line 164): data, results, items, serialnumbers, rows. -/
def ENVELOPE_KEYS : List String := ["data", "results", "items", "serialnumbers", "rows"]

/-- Probe the envelope keys in order; the first key bound to a list wins,
mirroring the loop in extract_items (request_api.py lines 163-166). -/
def probeEnvelope (es : List (String × PyVal)) : List String → Option (List PyVal)
  | [] => none
  | k :: ks =>
    match dictGet es k with
    | some (.vList vs) => some vs
    | _ => probeEnvelope es ks

/-- RentmanClient._extract_items (request_api.py lines 159-167): a list body
is returned as is; a dict body yields the first envelope-key value that is a
list; anything else yields the empty list. -/
def extract_items : PyVal → PyVal
  | .vList vs => .vList vs
  | .vDict es =>
    match probeEnvelope es ENVELOPE_KEYS with
    | some vs => .vList vs
    | none => .vList []
  | _ => .vList []

/-- The list carried by the (always list-shaped) result of extract_items. -/
def extractItemsList (data : PyVal) : List PyVal :=
  match extract_items data with
  | .vList vs => vs
  | _ => []

/-- Whether a value is a Python list. -/
def PyVal.isList : PyVal → Bool
  | .vList _ => true
  | _ => false

/-! ## String helpers: Python str.strip and the tokenizers -/

/-- Drop leading whitespace characters from a character list. -/
def dropWs (l : List Char) : List Char := l.dropWhile Char.isWhitespace

/-- Python str.strip() on the character level: drop whitespace from both
ends (ASCII whitespace, the range exercised by this program). -/
def stripChars (l : List Char) : List Char :=
  (dropWs (dropWs l).reverse).reverse

/-- Python str.strip() on strings. -/
def pyStrip (s : String) : String := String.mk (stripChars s.data)

/-- A string whose characters are all whitespace (including the empty
string): what the specification calls a whitespace-only id. -/
def whitespaceOnly (s : String) : Bool := s.data.all Char.isWhitespace

/-- Python str.split(",") on the character level: pieces between the
single-character separators, keeping empty pieces (so the result is never
empty and splitting the empty string gives one empty piece). -/
def splitCommaChars : List Char → List (List Char)
  | [] => [[]]
  | c :: cs =>
    if c = ',' then [] :: splitCommaChars cs
    else
      match splitCommaChars cs with
      | [] => [[c]]
      | p :: ps => (c :: p) :: ps

/-- Python str.split(",") on strings. -/
def pySplitComma (s : String) : List String := (splitCommaChars s.data).map String.mk

/-! ## RentmanClient.extract_serial_ids (request_api.py lines 87-125) -/

/-- The candidate key names probed per equipment record, in source order
(request_api.py lines 89-98). -/
def CANDIDATE_KEYS : List String :=
  ["serial_number_ids", "serial_number_id", "serialnumber_ids",
   "serialnumber_id", "serialnumber", "serial_numbers",
   "serial_numbers_ids", "id"]

/-- The first candidate key bound to a non-None value wins; the per-record
loop in extract_serial_ids breaks after processing it (lines 104-115). -/
def firstKeyVal (item : List (String × PyVal)) : List String → Option PyVal
  | [] => none
  | k :: ks =>
    match dictGet item k with
    | none => firstKeyVal item ks
    | some .vNone => firstKeyVal item ks
    | some v => some v

/-- Ids contributed by one value (request_api.py lines 108-114): a string is
split on commas, each part stripped, empty parts dropped; a list contributes
each non-None element stringified (no stripping); any other value
contributes its single stringified form. -/
def idsOfVal : PyVal → List String
  | .vStr s =>
    (pySplitComma s).filterMap (fun p =>
      if pyStrip p = "" then none else some (pyStrip p))
  | .vList vs =>
    vs.filterMap (fun x =>
      match x with
      | .vNone => none
      | v => some (pyStr v))
  | v => [pyStr v]

/-- The raw id sequence accumulated over all items before deduplication
(request_api.py lines 100-115); non-dict items are skipped. -/
def rawIds (items : List PyVal) : List String :=
  items.foldl (fun acc item =>
    match item with
    | .vDict d =>
      match firstKeyVal d CANDIDATE_KEYS with
      | none => acc
      | some v => acc ++ idsOfVal v
    | _ => acc) []

/-- The dedup loop of extract_serial_ids (request_api.py lines 117-122):
keep an id when it is truthy (non-empty) and not seen yet; seen is the
Python set, out the output list. -/
def dedupLoop : List String → List String → List String → List String
  | _, out, [] => out
  | seen, out, i :: rest =>
    if i ≠ "" ∧ i ∉ seen then dedupLoop (seen ++ [i]) (out ++ [i]) rest
    else dedupLoop seen out rest

/-- RentmanClient.extract_serial_ids (request_api.py lines 87-125). -/
def extract_serial_ids (items : List PyVal) : List String :=
  dedupLoop [] [] (rawIds items)

/-! ## HTTP model and the two fetchers of request_api.py -/

/-- An HTTP response: status code and decoded JSON body. requests treats
status codes below 400 as ok; raise_for_status raises exactly on 4xx/5xx. -/
structure HttpResp where
  status : Nat
  body : PyVal

/-- RentmanClient._fetch_all_pages (request_api.py lines 131-157), with the
remote modelled as a function from the requested offset to a response and
an explicit fuel bound standing for the unbounded while loop. The first
component lists the offsets requested in order; the second is the returned
item list, or the status of a raised HTTPError (which discards everything
accumulated, as the Python exception does). -/
def fetch_all_pages (respF : Nat → HttpResp) (limit : Nat) :
    Nat → Nat → List Nat × Except Nat (List PyVal)
  | 0, _ => ([], .ok [])
  | fuel + 1, offset =>
    let r := respF offset
    if 400 ≤ r.status then
      ([offset], .error r.status)
    else
      let items := extractItemsList r.body
      if items.length = 0 then ([offset], .ok [])
      else if items.length < limit then ([offset], .ok items)
      else
        match fetch_all_pages respF limit fuel (offset + limit) with
        | (reqs, .ok rest) => (offset :: reqs, .ok (items ++ rest))
        | (reqs, .error e) => (offset :: reqs, .error e)

/-- The fixed batch size of get_serial_number_info (request_api.py
line 11). -/
def BATCH_SIZE : Nat := 100

/-- Structural worker for chunks: the fuel bounds the number of slices and
is always at least the list length, so the middle branch never fires. -/
def chunksGo : Nat → List String → List (List String)
  | _, [] => []
  | 0, _ :: _ => []
  | fuel + 1, a :: t => (a :: t).take BATCH_SIZE :: chunksGo fuel ((a :: t).drop BATCH_SIZE)

/-- The consecutive slices ids[start : start + 100] produced by
range(0, len(ids), 100) in request_api.py line 52. -/
def chunks (l : List String) : List (List String) := chunksGo l.length l

/-- The fuel of chunksGo is irrelevant as long as it covers the length. -/
theorem chunksGo_fuel : ∀ (n m : Nat) (l : List String),
    l.length ≤ n → l.length ≤ m → chunksGo n l = chunksGo m l := by
  intro n
  induction n with
  | zero =>
    intro m l hn _
    have : l = [] := by cases l <;> simp_all
    subst this
    cases m <;> rfl
  | succ n ih =>
    intro m l hn hm
    cases l with
    | nil => cases m <;> rfl
    | cons a t =>
      cases m with
      | zero => simp at hm
      | succ m =>
        show _ :: _ = _ :: _
        rw [ih m ((a :: t).drop BATCH_SIZE)
          (by simp [BATCH_SIZE] at hn ⊢; omega)
          (by simp [BATCH_SIZE] at hm ⊢; omega)]

/-- Unfolding equation of chunks on a non-empty list. -/
theorem chunks_cons (a : String) (t : List String) :
    chunks (a :: t) = (a :: t).take BATCH_SIZE :: chunks ((a :: t).drop BATCH_SIZE) := by
  show _ :: chunksGo t.length ((a :: t).drop BATCH_SIZE) = _
  rw [chunksGo_fuel t.length ((a :: t).drop BATCH_SIZE).length ((a :: t).drop BATCH_SIZE)
    (by simp [BATCH_SIZE]) le_rfl]
  rfl

/-- The per-batch loop of get_serial_number_info (request_api.py lines
52-78): each batch issues one request whose id parameter is the
comma-joined batch; a 404 skips the batch; any other non-ok status raises
(modelled as Except.error, discarding the accumulator); otherwise the
extracted items extend the accumulator when they form a list, else the
single value is appended. The first component records the issued id
parameters in order. -/
def goBatches (respF : Nat → HttpResp) :
    Nat → List (List String) → List PyVal → List String × Except Nat (List PyVal)
  | _, [], acc => ([], .ok acc)
  | k, b :: rest, acc =>
    let param := String.intercalate "," b
    let r := respF k
    if r.status = 404 then
      let res := goBatches respF (k + 1) rest acc
      (param :: res.1, res.2)
    else if 400 ≤ r.status then
      ([param], .error r.status)
    else
      let acc2 :=
        match extract_items r.body with
        | .vList vs => acc ++ vs
        | v => acc ++ [v]
      let res := goBatches respF (k + 1) rest acc2
      (param :: res.1, res.2)

/-- RentmanClient.get_serial_number_info (request_api.py lines 40-81): an
empty id list returns immediately with no request; otherwise the batches
are processed in order. -/
def get_serial_number_info (respF : Nat → HttpResp) (ids : List String) :
    List String × Except Nat (List PyVal) :=
  if ids = [] then ([], .ok [])
  else goBatches respF 0 (chunks ids) []

/-! ## Match-set construction (app.py, _display_results lines 324-337) -/

/-- The fields flattened into the match set (app.py line 327). -/
def MATCH_KEYS : List String := ["id", "qrcodes", "serial", "displayname", "ref"]

/-- Python set.add on the list model: insert only when absent. -/
def pySetAdd (s : List String) (x : String) : List String :=
  if x ∈ s then s else s ++ [x]

/-- Add the comma-separated parts of the stringified value, each stripped,
skipping empty parts (app.py lines 331-335). -/
def addParts (s : List String) (v : PyVal) : List String :=
  (pySplitComma (pyStr v)).foldl (fun acc part =>
    if pyStrip part = "" then acc else pySetAdd acc (pyStrip part)) s

/-- Contribution of one field of one record: missing keys and None values
are skipped (app.py lines 328-330). -/
def addKey (sn : List (String × PyVal)) (acc : List String) (key : String) : List String :=
  match dictGet sn key with
  | none => acc
  | some .vNone => acc
  | some v => addParts acc v

/-- Per-record contribution: each match key in order (app.py line 327). -/
def addRecord (s : List String) (sn : List (String × PyVal)) : List String :=
  MATCH_KEYS.foldl (addKey sn) s

/-- The match-set construction in _display_results (app.py lines 324-336):
flatten the selected fields of all serial-number records into a set of
trimmed non-empty tokens, then discard the empty string. -/
def buildMatchSet (sns : List (List (String × PyVal))) : List String :=
  (sns.foldl addRecord []).filter (fun x => x ≠ "")

/-! ## Filename tokenization (app.py, _copy_files lines 398-412) -/

/-- os.path.splitext applied to a bare filename, returning the root: the
extension starts at the last dot, except that a name whose characters
before the last dot are all dots (e.g. a dotfile) has no extension. -/
def splitextRoot (s : String) : String :=
  let rev := s.data.reverse
  let extRev := rev.takeWhile (fun c => c ≠ '.')
  if extRev.length = rev.length then s
  else
    let rootChars := (rev.drop (extRev.length + 1)).reverse
    if rootChars.any (fun c => c ≠ '.') then String.mk rootChars else s

/-- The separator class of the regex in app.py line 405: underscore,
hyphen, period, or whitespace. -/
def isSep (c : Char) : Bool := c = '_' || c = '-' || c = '.' || c.isWhitespace

/-- re.split on runs of separators, characterwise: a separator character
followed by another separator extends the current run; a separator followed
by a non-separator (or the end) closes a piece. Pieces are the segments
between maximal separator runs, with empty pieces at the ends when the name
starts or ends with a separator (exact re.split semantics for the pattern
of app.py line 405). -/
def splitSepsChars : List Char → List (List Char)
  | [] => [[]]
  | c :: cs =>
    if isSep c then
      match cs with
      | [] => [[], []]
      | d :: _ => if isSep d then splitSepsChars cs else [] :: splitSepsChars cs
    else
      match splitSepsChars cs with
      | [] => [[c]]
      | p :: ps => (c :: p) :: ps

/-- re.split of app.py line 405 on strings. -/
def reSplitSeps (s : String) : List String := (splitSepsChars s.data).map String.mk

/-- The match test of app.py line 407: some filename token is in the match
set, or the whole extension-stripped name is. -/
def fileMatch (name : String) (m : List String) : Bool :=
  let root := splitextRoot name
  (reSplitSeps root).any (fun p => m.contains p) || m.contains root

/-! ## The copy loop (app.py, _copy_files lines 385-412)

The filesystem is abstracted to what the loop observes: the source
directory listing as a list of (entry name, is regular file) pairs, and the
destination directory contents as a list of filenames. shutil.rmtree plus
os.makedirs turn any prior destination contents into the empty directory
before the listing is scanned. -/

/-- State threaded through the copy loop: destination contents, counters,
and the bounded unmatched diagnostic samples. -/
structure CopyState where
  dest : List String
  copied : Nat
  scanned : Nat
  unmatched : List String

/-- The per-entry loop of _copy_files (app.py lines 398-412): directories
are skipped; a matching regular file is copied under its original name; an
unmatched file is sampled up to 20 entries. -/
def copyLoop (m : List String) : CopyState → List (String × Bool) → CopyState
  | st, [] => st
  | st, (name, isfile) :: rest =>
    if isfile then
      let st1 : CopyState :=
        { st with scanned := st.scanned + 1 }
      if fileMatch name m then
        copyLoop m { st1 with dest := st1.dest ++ [name], copied := st1.copied + 1 } rest
      else if st1.unmatched.length < 20 then
        copyLoop m { st1 with unmatched := st1.unmatched ++ [name] } rest
      else copyLoop m st1 rest
    else copyLoop m st rest

/-- _copy_files (app.py lines 385-412): the destination directory (named
after the project id under the source folder) is removed with its whole
prior contents if present and recreated empty, before the listing scan
starts; then the loop copies the matching regular files. destPrior is the
prior destination contents (none when the directory did not exist). -/
def copy_files (listing : List (String × Bool)) (destPrior : Option (List String))
    (_projectId : String) (m : List String) : CopyState :=
  let dest0 : List String :=
    match destPrior with
    | some _ => []
    | none => []
  copyLoop m ⟨dest0, 0, 0, []⟩ listing

/-! ## Session state machine (app.py, App)

The App instance keeps the project entry text and the match set from the
most recent completed fetch. The match set is tagged here with the project
id the fetch used (a ghost component; the Python object keeps no such tag),
so that the temporal claim relating a copy to the fetch that built its
match set can be stated. The environment function env gives the
serial-number records the fetch pipeline yields for each project id. -/

/-- Session state: the text of the project entry and, once a fetch has
completed, the fetched project id together with the match set it built
(self._match_values; None before the first _display_results). -/
structure Session where
  projectEntry : String
  matchValues : Option (String × List String)

/-- A user interaction: editing the project entry, clicking Fetch, or
clicking Copy Matching Files. -/
inductive Ev where
  | setEntry (s : String)
  | fetch
  | copy

/-- Observation emitted by a completed copy: the destination directory name
(the entry text at copy time, app.py lines 362 and 387), the project id of
the fetch that built the match set in use, and that match set. -/
structure CopyObs where
  destPid : String
  originPid : String
  matchSet : List String

/-- One step of the session: _on_fetch validates the entry and replaces the
match set with the one built for the entered project (app.py lines 257-304,
325-336); _on_copy validates the folder and entry, requires a non-empty
match set, and runs the copy against the current entry text (app.py lines
360-392). Guard failures leave the state unchanged and emit nothing. -/
def stepEv (env : String → List (List (String × PyVal))) (st : Session) :
    Ev → Session × Option CopyObs
  | .setEntry s => ({ st with projectEntry := s }, none)
  | .fetch =>
    if st.projectEntry = "" then (st, none)
    else
      let mv := some (st.projectEntry, buildMatchSet (env st.projectEntry))
      ({ st with matchValues := mv }, none)
  | .copy =>
    if st.projectEntry = "" then (st, none)
    else
      match st.matchValues with
      | none => (st, none)
      | some (origin, s) =>
        if s = [] then (st, none)
        else (st, some ⟨st.projectEntry, origin, s⟩)

/-- Run a sequence of interactions, collecting the copy observations. -/
def runEvs (env : String → List (List (String × PyVal))) :
    Session → List Ev → Session × List CopyObs
  | st, [] => (st, [])
  | st, e :: rest =>
    let (st1, obs) := stepEv env st e
    let (st2, obss) := runEvs env st1 rest
    (st2, (match obs with | none => [] | some o => [o]) ++ obss)

/-! ## Concrete demonstration inputs -/

/-- A fresh numbered id list, e.g. demoIds 250 for the 250-id batch
example. -/
def demoIds (n : Nat) : List String := (List.range n).map (fun i => toString i)

/-- A page of n integer items starting at s. -/
def mkPage (s n : Nat) : List PyVal := (List.range n).map (fun i => .vInt (s + i))

/-- A remote resource serving pages of sizes 100, 100, 37 under limit 100:
offsets 0 and 100 return full pages, offset 200 the short page of 37, and
anything else an empty page. -/
def resp237 (off : Nat) : HttpResp :=
  if off = 0 then ⟨200, .vList (mkPage 0 100)⟩
  else if off = 100 then ⟨200, .vList (mkPage 100 100)⟩
  else if off = 200 then ⟨200, .vList (mkPage 200 37)⟩
  else ⟨200, .vList []⟩

/-- A response function whose status per request is chosen by a Boolean
schedule (true yields 200 with the scheduled body, false yields 404): the
non-aborting statuses tolerated by the batch fetcher. -/
def mkResp (st : Nat → Bool) (bodies : Nat → List PyVal) (k : Nat) : HttpResp :=
  if st k then ⟨200, .vList (bodies k)⟩ else ⟨404, .vList []⟩

/-- An environment for the session model: every project yields one
serial-number record with id A1. -/
def envC : String → List (List (String × PyVal)) := fun _ => [[("id", PyVal.vStr "A1")]]

/-! ## Helper lemmas -/

/-- extract_items always returns a list-shaped value. -/
theorem extract_items_eq_vList (data : PyVal) :
    extract_items data = .vList (extractItemsList data) := by
  cases data with
  | vList vs => rfl
  | vDict es =>
    unfold extract_items extractItemsList
    cases h : probeEnvelope es ENVELOPE_KEYS <;> simp [extract_items, h]
  | vNone => rfl
  | vBool b => rfl
  | vInt n => rfl
  | vStr s => rfl

/-- If no probed key is bound to a list, the probe fails. -/
theorem probeEnvelope_eq_none (es : List (String × PyVal)) :
    ∀ ks, (∀ k ∈ ks, ((dictGet es k).map PyVal.isList).getD false = false) →
    probeEnvelope es ks = none := by
  intro ks
  induction ks with
  | nil => intro _; rfl
  | cons k ks ih =>
    intro h
    have hk := h k (by simp)
    unfold probeEnvelope
    cases hg : dictGet es k with
    | none => exact ih (fun k hm => h k (by simp [hm]))
    | some v =>
      cases v with
      | vList vs => rw [hg] at hk; simp [PyVal.isList] at hk
      | vNone => exact ih (fun k hm => h k (by simp [hm]))
      | vBool b => exact ih (fun k hm => h k (by simp [hm]))
      | vInt n => exact ih (fun k hm => h k (by simp [hm]))
      | vStr s => exact ih (fun k hm => h k (by simp [hm]))
      | vDict d => exact ih (fun k hm => h k (by simp [hm]))

/-! ## Claims -/

/-- C10: the envelope normalizer extract_items returns a list for every
JSON body; a body that is neither a list nor a mapping binding one of the
envelope keys to a list yields the empty list; consequently the
single-value append branch of get_serial_number_info can never fire (its
match always takes the list arm), and in fetch_all_pages a successful
response whose envelope is unrecognized (extracted items empty) ends
pagination silently with an ok result, contributing nothing, rather than
raising an error. -/
theorem extract_items_always_list :
    (∀ data, extract_items data = .vList (extractItemsList data)) ∧
    (∀ data, data.isList = false →
      (∀ es, data = .vDict es → ∀ k ∈ ENVELOPE_KEYS,
        ((dictGet es k).map PyVal.isList).getD false = false) →
      extract_items data = .vList []) ∧
    (∀ (acc : List PyVal) (body : PyVal),
      (match extract_items body with
       | .vList vs => acc ++ vs
       | v => acc ++ [v]) = acc ++ extractItemsList body) ∧
    (∀ (respF : Nat → HttpResp) (limit fuel offset : Nat),
      (respF offset).status < 400 →
      extract_items (respF offset).body = .vList [] →
      fetch_all_pages respF limit (fuel + 1) offset = ([offset], .ok [])) := by
  refine ⟨extract_items_eq_vList, ?_, ?_, ?_⟩
  · intro data hnl hdict
    cases data with
    | vList vs => simp [PyVal.isList] at hnl
    | vDict es =>
      have hp := probeEnvelope_eq_none es ENVELOPE_KEYS (hdict es rfl)
      simp [extract_items, hp]
    | vNone => rfl
    | vBool b => rfl
    | vInt n => rfl
    | vStr s => rfl
  · intro acc body
    rw [extract_items_eq_vList body]
  · intro respF limit fuel offset hst hemp
    have hlen : extractItemsList (respF offset).body = [] := by
      have := extract_items_eq_vList (respF offset).body
      rw [hemp] at this
      exact (PyVal.vList.injEq _ _).mp this.symm
    unfold fetch_all_pages
    rw [if_neg (by omega), hlen]
    simp

/-- C10 witness: a dict body with no recognized envelope key normalizes to
the empty list and ends pagination at offset 0 with an empty ok result. -/
theorem extract_items_always_list_witness :
    ((PyVal.vDict [("foo", PyVal.vStr "x")]).isList = false ∧
      extract_items (PyVal.vDict [("foo", PyVal.vStr "x")]) = .vList []) ∧
    fetch_all_pages (fun _ => ⟨200, PyVal.vDict [("foo", PyVal.vStr "x")]⟩) 100 5 0 =
      ([0], .ok []) := by
  constructor
  · exact ⟨rfl, extract_items_always_list.2.1 _ rfl
      (by intro es h; injection h with h; subst h; decide)⟩
  · exact extract_items_always_list.2.2.2 _ 100 4 0 (by decide) (by rfl)

/-- C6: in the batch fetcher, a batch answered with status 404 contributes
zero records and processing continues with the subsequent batches (its
request is still issued, then the remaining batches run on the unchanged
accumulator); any other non-success status (at least 400) aborts the whole
operation with an error carrying that status, issuing no further request,
and the result holds no record accumulated from earlier batches. -/
theorem goBatches_404_skips_other_aborts :
    (∀ (respF : Nat → HttpResp) (k : Nat) (b : List String)
        (rest : List (List String)) (acc : List PyVal),
      (respF k).status = 404 →
      goBatches respF k (b :: rest) acc =
        (String.intercalate "," b :: (goBatches respF (k + 1) rest acc).1,
         (goBatches respF (k + 1) rest acc).2)) ∧
    (∀ (respF : Nat → HttpResp) (k : Nat) (b : List String)
        (rest : List (List String)) (acc : List PyVal),
      400 ≤ (respF k).status → (respF k).status ≠ 404 →
      goBatches respF k (b :: rest) acc =
        ([String.intercalate "," b], .error (respF k).status)) := by
  constructor
  · intro respF k b rest acc h404
    conv_lhs => rw [goBatches]
    rw [if_pos h404]
  · intro respF k b rest acc hge hne
    conv_lhs => rw [goBatches]
    rw [if_neg hne, if_pos hge]

/-- C6 witness: with a schedule answering 404 to batch 0 and 500 to batch
1, the first batch is skipped and a later aborting batch yields the error
regardless of the accumulator. -/
theorem goBatches_404_skips_other_aborts_witness :
    ((fun _ => (⟨404, PyVal.vList []⟩ : HttpResp)) 0).status = 404 ∧
    goBatches (fun _ => ⟨404, PyVal.vList []⟩) 0 [["1", "2"]] [] =
      ("1,2" :: (goBatches (fun _ => ⟨404, PyVal.vList []⟩) 1 [] []).1,
       (goBatches (fun _ => ⟨404, PyVal.vList []⟩) 1 [] []).2) ∧
    400 ≤ ((fun _ => (⟨500, PyVal.vList []⟩ : HttpResp)) 0).status ∧
    goBatches (fun _ => ⟨500, PyVal.vList []⟩) 0 [["1"], ["2"]] [.vInt 7] =
      (["1"], .error 500) := by
  refine ⟨rfl, ?_, by decide, ?_⟩
  · exact goBatches_404_skips_other_aborts.1 _ 0 _ _ _ rfl
  · exact goBatches_404_skips_other_aborts.2 _ 0 _ _ _ (by decide) (by decide)

/-- Concatenating the batches gives back the id list. -/
theorem chunks_join : ∀ (n : Nat) (l : List String), l.length ≤ n →
    (chunks l).flatten = l := by
  intro n
  induction n with
  | zero =>
    intro l h
    have : l = [] := by cases l <;> simp_all
    subst this
    rfl
  | succ n ih =>
    intro l h
    cases l with
    | nil => rfl
    | cons a t =>
      rw [chunks_cons]
      simp only [List.flatten_cons]
      rw [ih ((a :: t).drop BATCH_SIZE) (by simp [BATCH_SIZE] at h ⊢; omega)]
      exact List.take_append_drop _ _

/-- Every batch is non-empty and holds at most BATCH_SIZE ids. -/
theorem chunks_sizes : ∀ (n : Nat) (l : List String), l.length ≤ n →
    ∀ b ∈ chunks l, 0 < b.length ∧ b.length ≤ BATCH_SIZE := by
  intro n
  induction n with
  | zero =>
    intro l h
    have : l = [] := by cases l <;> simp_all
    subst this
    intro b hb
    simp [chunks, chunksGo] at hb
  | succ n ih =>
    intro l h b hb
    cases l with
    | nil => simp [chunks, chunksGo] at hb
    | cons a t =>
      rw [chunks_cons] at hb
      rcases List.mem_cons.mp hb with hb | hb
      · subst hb
        simp [List.length_take, BATCH_SIZE]
      · exact ih ((a :: t).drop BATCH_SIZE) (by simp [BATCH_SIZE] at h ⊢; omega) b hb

/-- The number of batches is the length divided by BATCH_SIZE, rounded
up. -/
theorem chunks_count : ∀ (n : Nat) (l : List String), l.length ≤ n →
    (chunks l).length = (l.length + BATCH_SIZE - 1) / BATCH_SIZE := by
  intro n
  induction n with
  | zero =>
    intro l h
    have : l = [] := by cases l <;> simp_all
    subst this
    rfl
  | succ n ih =>
    intro l h
    cases l with
    | nil => rfl
    | cons a t =>
      rw [chunks_cons]
      simp only [List.length_cons]
      rw [ih ((a :: t).drop BATCH_SIZE) (by simp [BATCH_SIZE] at h ⊢; omega)]
      simp [List.length_drop, BATCH_SIZE]
      omega

/-- Under non-aborting responses the batch loop issues one request per
batch, in order, with the comma-joined batch as parameter. -/
theorem goBatches_requests (stF : Nat → Bool) (bodies : Nat → List PyVal) :
    ∀ (bs : List (List String)) (k : Nat) (acc : List PyVal),
    (goBatches (mkResp stF bodies) k bs acc).1 =
      bs.map (fun b => String.intercalate "," b) := by
  intro bs
  induction bs with
  | nil => intro k acc; rfl
  | cons b rest ih =>
    intro k acc
    rw [goBatches]
    by_cases hs : stF k
    · have h1 : ¬ (mkResp stF bodies k).status = 404 := by simp [mkResp, hs]
      have h2 : ¬ 400 ≤ (mkResp stF bodies k).status := by simp [mkResp, hs]
      simp only [if_neg h1, if_neg h2]
      rw [ih]
      rfl
    · have h1 : (mkResp stF bodies k).status = 404 := by simp [mkResp, hs]
      simp only [if_pos h1]
      rw [ih]
      rfl

set_option maxRecDepth 100000 in
/-- C5: for any id list and any non-aborting schedule of responses
(successes or tolerated 404s in any mix), fetchSerialDetails issues exactly
one request per batch: the requests carry the comma-joined consecutive
batches of at most 100 ids, in list order, their concatenation restores the
id list, their number is the length of the id list divided by 100 rounded
up, and an empty id list yields an empty ok result with zero requests.
With 250 ids this is exactly 3 requests with batch sizes 100, 100, 50. -/
theorem get_serial_number_info_batches :
    (∀ (stF : Nat → Bool) (bodies : Nat → List PyVal) (ids : List String),
      (get_serial_number_info (mkResp stF bodies) ids).1 =
        (chunks ids).map (fun b => String.intercalate "," b) ∧
      (chunks ids).flatten = ids ∧
      (∀ b ∈ chunks ids, 0 < b.length ∧ b.length ≤ BATCH_SIZE) ∧
      (chunks ids).length = (ids.length + BATCH_SIZE - 1) / BATCH_SIZE ∧
      get_serial_number_info (mkResp stF bodies) [] = ([], .ok [])) ∧
    (chunks (demoIds 250)).map List.length = [100, 100, 50] ∧
    (get_serial_number_info (mkResp (fun _ => true) (fun _ => [])) (demoIds 250)).1.length = 3 := by
  refine ⟨?_, by decide, by decide⟩
  intro stF bodies ids
  refine ⟨?_, chunks_join ids.length ids le_rfl, chunks_sizes ids.length ids le_rfl,
    chunks_count ids.length ids le_rfl, rfl⟩
  unfold get_serial_number_info
  by_cases h : ids = []
  · subst h; rfl
  · rw [if_neg h]
    exact goBatches_requests stF bodies (chunks ids) 0 []

/-- Membership in the set-insertion. -/
theorem mem_pySetAdd (s : List String) (y x : String) :
    x ∈ pySetAdd s y ↔ x ∈ s ∨ x = y := by
  unfold pySetAdd
  by_cases h : y ∈ s
  · rw [if_pos h]
    constructor
    · exact Or.inl
    · rintro (hx | rfl)
      · exact hx
      · exact h
  · rw [if_neg h]
    simp

/-- A token lands in addParts exactly when it was already in the set or it
is a non-empty stripped comma-part of the stringified value. -/
theorem mem_addParts (v : PyVal) (s : List String) (x : String) :
    x ∈ addParts s v ↔
      x ∈ s ∨ (x ≠ "" ∧ ∃ p ∈ pySplitComma (pyStr v), pyStrip p = x) := by
  unfold addParts
  generalize pySplitComma (pyStr v) = parts
  induction parts generalizing s with
  | nil => simp
  | cons p ps ih =>
    simp only [List.foldl_cons]
    by_cases hp : pyStrip p = ""
    · rw [if_pos hp, ih]
      constructor
      · rintro (hx | hx)
        · exact Or.inl hx
        · exact Or.inr ⟨hx.1, hx.2.elim (fun q hq => ⟨q, by simp [hq.1], hq.2⟩)⟩
      · rintro (hx | ⟨hne, q, hq, hqs⟩)
        · exact Or.inl hx
        · rcases List.mem_cons.mp hq with rfl | hq
          · exact absurd (hp.symm.trans hqs) (Ne.symm hne)
          · exact Or.inr ⟨hne, q, hq, hqs⟩
    · rw [if_neg hp, ih]
      rw [mem_pySetAdd]
      constructor
      · rintro ((hx | rfl) | hx)
        · exact Or.inl hx
        · exact Or.inr ⟨hp, p, by simp, rfl⟩
        · exact Or.inr ⟨hx.1, hx.2.elim (fun q hq => ⟨q, by simp [hq.1], hq.2⟩)⟩
      · rintro (hx | ⟨hne, q, hq, hqs⟩)
        · exact Or.inl (Or.inl hx)
        · rcases List.mem_cons.mp hq with rfl | hq
          · exact Or.inl (Or.inr hqs.symm)
          · exact Or.inr ⟨hne, q, hq, hqs⟩

/-- Membership after one field of one record. -/
theorem mem_addKey (sn : List (String × PyVal)) (k : String) (s : List String) (x : String) :
    x ∈ addKey sn s k ↔
      x ∈ s ∨ (x ≠ "" ∧ ∃ v, dictGet sn k = some v ∧ v ≠ .vNone ∧
        ∃ p ∈ pySplitComma (pyStr v), pyStrip p = x) := by
  unfold addKey
  cases hg : dictGet sn k with
  | none => simp [hg]
  | some v =>
    cases v with
    | vNone => simp
    | vBool b => rw [mem_addParts]; simp
    | vInt n => rw [mem_addParts]; simp
    | vStr str => rw [mem_addParts]; simp
    | vList vs => rw [mem_addParts]; simp
    | vDict es => rw [mem_addParts]; simp

/-- Membership after all fields of one record. -/
theorem mem_addRecord (sn : List (String × PyVal)) (s : List String) (x : String) :
    x ∈ addRecord s sn ↔
      x ∈ s ∨ (x ≠ "" ∧ ∃ k ∈ MATCH_KEYS, ∃ v, dictGet sn k = some v ∧ v ≠ .vNone ∧
        ∃ p ∈ pySplitComma (pyStr v), pyStrip p = x) := by
  unfold addRecord
  generalize MATCH_KEYS = ks
  induction ks generalizing s with
  | nil => simp
  | cons k ks ih =>
    simp only [List.foldl_cons]
    rw [ih, mem_addKey]
    constructor
    · rintro ((hx | ⟨hne, v, hv⟩) | ⟨hne, k2, hk2, hrest⟩)
      · exact Or.inl hx
      · exact Or.inr ⟨hne, k, by simp, v, hv⟩
      · exact Or.inr ⟨hne, k2, by simp [hk2], hrest⟩
    · rintro (hx | ⟨hne, k2, hk2, hrest⟩)
      · exact Or.inl (Or.inl hx)
      · rcases List.mem_cons.mp hk2 with rfl | hk2
        · exact Or.inl (Or.inr ⟨hne, hrest⟩)
        · exact Or.inr ⟨hne, k2, hk2, hrest⟩

/-- Membership after folding all records. -/
theorem mem_recordFold (sns : List (List (String × PyVal))) (s : List String) (x : String) :
    x ∈ sns.foldl addRecord s ↔
      x ∈ s ∨ (x ≠ "" ∧ ∃ sn ∈ sns, ∃ k ∈ MATCH_KEYS, ∃ v,
        dictGet sn k = some v ∧ v ≠ .vNone ∧
        ∃ p ∈ pySplitComma (pyStr v), pyStrip p = x) := by
  induction sns generalizing s with
  | nil => simp
  | cons sn sns ih =>
    simp only [List.foldl_cons]
    rw [ih, mem_addRecord]
    constructor
    · rintro ((hx | ⟨hne, hrest⟩) | ⟨hne, sn2, hsn2, hrest⟩)
      · exact Or.inl hx
      · exact Or.inr ⟨hne, sn, by simp, hrest⟩
      · exact Or.inr ⟨hne, sn2, by simp [hsn2], hrest⟩
    · rintro (hx | ⟨hne, sn2, hsn2, hrest⟩)
      · exact Or.inl (Or.inl hx)
      · rcases List.mem_cons.mp hsn2 with rfl | hsn2
        · exact Or.inl (Or.inr ⟨hne, hrest⟩)
        · exact Or.inr ⟨hne, sn2, hsn2, hrest⟩

/-- C7: the match set built by _display_results holds exactly the
non-empty stripped comma-separated parts of the stringified values found
under the fields id, qrcodes, serial, displayname, ref (present and
non-null) across all serial-number records; the empty string is never a
member; and on the record with id A1 and qrcodes F1,R2 it yields exactly
the set with elements A1, F1, R2. -/
theorem buildMatchSet_spec :
    (∀ (sns : List (List (String × PyVal))) (x : String),
      x ∈ buildMatchSet sns ↔
        (x ≠ "" ∧ ∃ sn ∈ sns, ∃ k ∈ MATCH_KEYS, ∃ v,
          dictGet sn k = some v ∧ v ≠ .vNone ∧
          ∃ p ∈ pySplitComma (pyStr v), pyStrip p = x)) ∧
    (∀ sns, "" ∉ buildMatchSet sns) ∧
    buildMatchSet [[("id", .vStr "A1"), ("qrcodes", .vStr "F1,R2")]] = ["A1", "F1", "R2"] := by
  have hmem : ∀ (sns : List (List (String × PyVal))) (x : String),
      x ∈ buildMatchSet sns ↔
        (x ≠ "" ∧ ∃ sn ∈ sns, ∃ k ∈ MATCH_KEYS, ∃ v,
          dictGet sn k = some v ∧ v ≠ .vNone ∧
          ∃ p ∈ pySplitComma (pyStr v), pyStrip p = x) := by
    intro sns x
    unfold buildMatchSet
    rw [List.mem_filter]
    rw [mem_recordFold]
    constructor
    · rintro ⟨(hx | hx), hne⟩
      · simp at hx
      · exact hx
    · rintro ⟨hne, hrest⟩
      exact ⟨Or.inr ⟨hne, hrest⟩, by simpa using hne⟩
  refine ⟨hmem, ?_, by decide⟩
  intro sns h
  exact ((hmem sns "").mp h).1 rfl

/-- The head surviving a dropWhile fails the predicate. -/
theorem dropWhile_head_false {α : Type} (p : α → Bool) :
    ∀ (l : List α) (c : α) (t : List α), l.dropWhile p = c :: t → p c = false := by
  intro l
  induction l with
  | nil => intro c t h; simp [List.dropWhile] at h
  | cons a l ih =>
    intro c t h
    by_cases hp : p a
    · rw [List.dropWhile_cons_of_pos hp] at h
      exact ih c t h
    · rw [List.dropWhile_cons_of_neg hp] at h
      injection h with h1 h2
      subst h1
      simpa using hp

/-- A non-empty stripped string contains a non-whitespace character. -/
theorem stripChars_has_nonws (l : List Char) (h : stripChars l ≠ []) :
    ∃ c ∈ stripChars l, Char.isWhitespace c = false := by
  unfold stripChars at h ⊢
  cases hr : dropWs (dropWs l).reverse with
  | nil => rw [hr] at h; simp at h
  | cons c t =>
    have hc : Char.isWhitespace c = false :=
      dropWhile_head_false Char.isWhitespace (dropWs l).reverse c t hr
    exact ⟨c, by simp, hc⟩

/-- The dedup filter keeps only truthy (non-empty) ids. -/
theorem dedupLoop_no_empty :
    ∀ (l seen out : List String), "" ∉ out → "" ∉ dedupLoop seen out l := by
  intro l
  induction l with
  | nil => intro seen out h; exact h
  | cons i rest ih =>
    intro seen out h
    unfold dedupLoop
    by_cases hc : i ≠ "" ∧ i ∉ seen
    · rw [if_pos hc]
      exact ih _ _ (by simp [h]; exact fun he => absurd he.symm hc.1)
    · rw [if_neg hc]
      exact ih _ _ h

/-- C3 counterexample: a record carrying a list-typed id field with the
whitespace-only string under serial_number_ids makes extract_serial_ids
return that whitespace-only (non-empty) string, contradicting the claim
that no element of the output is whitespace-only. -/
theorem extract_serial_ids_whitespace_cex :
    extract_serial_ids [.vDict [("serial_number_ids", .vList [.vStr " "])]] = [" "] ∧
    whitespaceOnly " " = true ∧ (" " : String) ≠ "" := by
  refine ⟨by decide, by decide, by decide⟩

/-- C3 amended: the output of extract_serial_ids never contains the empty
string, and ids derived from string-typed field values (split on commas and
stripped) are never empty nor whitespace-only; but ids derived from list
elements (or other non-string scalars) are stringified without stripping,
so a whitespace-only id can occur, as the counterexample shows. -/
theorem extract_serial_ids_no_empty :
    (∀ (items : List PyVal), "" ∉ extract_serial_ids items) ∧
    (∀ (s x : String), x ∈ idsOfVal (.vStr s) →
      x ≠ "" ∧ whitespaceOnly x = false) := by
  constructor
  · intro items
    exact dedupLoop_no_empty (rawIds items) [] [] (by simp)
  · intro s x hx
    unfold idsOfVal at hx
    rw [List.mem_filterMap] at hx
    obtain ⟨p, _, hp⟩ := hx
    by_cases hemp : pyStrip p = ""
    · rw [if_pos hemp] at hp; exact absurd hp (by simp)
    · rw [if_neg hemp] at hp
      have hxe : x = pyStrip p := by
        have := hp
        simpa using this.symm
      subst hxe
      refine ⟨hemp, ?_⟩
      have hne : stripChars p.data ≠ [] := by
        intro hnil
        exact hemp (by unfold pyStrip; rw [hnil])
      obtain ⟨c, hc, hcw⟩ := stripChars_has_nonws p.data hne
      unfold whitespaceOnly pyStrip
      rw [Bool.eq_false_iff]
      intro hall
      rw [List.all_eq_true] at hall
      have := hall c hc
      rw [hcw] at this
      simp at this

/-- C3 amended witness: the no-empty-string guarantee at a concrete
equipment list, and the string-value guarantee at a concrete comma-joined
value. -/
theorem extract_serial_ids_no_empty_witness :
    ("" ∉ extract_serial_ids [.vDict [("id", .vStr "a, ,b")]]) ∧
    ("a" ≠ "" ∧ whitespaceOnly "a" = false) := by
  constructor
  · exact extract_serial_ids_no_empty.1 _
  · exact extract_serial_ids_no_empty.2 "a, ,b" "a" (by decide)

/-- The Boolean match test agrees with its logical reading. -/
theorem fileMatch_iff (name : String) (m : List String) :
    fileMatch name m = true ↔
      ((∃ tok ∈ reSplitSeps (splitextRoot name), tok ∈ m) ∨ splitextRoot name ∈ m) := by
  unfold fileMatch
  simp [List.any_eq_true]

/-- The destination written by the copy loop: what it started with,
followed by the names of the matching regular files of the remaining
listing, in order. -/
theorem copyLoop_dest (m : List String) :
    ∀ (l : List (String × Bool)) (st : CopyState),
    (copyLoop m st l).dest =
      st.dest ++ (l.filter (fun e => e.2 && fileMatch e.1 m)).map Prod.fst := by
  intro l
  induction l with
  | nil => intro st; simp [copyLoop]
  | cons e rest ih =>
    intro st
    obtain ⟨name, isfile⟩ := e
    cases isfile with
    | false =>
      rw [copyLoop]
      simp [ih st]
    | true =>
      rw [copyLoop]
      by_cases hm : fileMatch name m
      · simp [hm, ih]
      · by_cases hs : st.unmatched.length < 20
        · simp [hm, hs, ih]
        · simp [hm, hs, ih]

/-- C1: a regular file of the source directory is copied into the
destination (under its original name) exactly when some token of its
extension-stripped, separator-split name is in the match set, or the whole
extension-stripped name is; with match set containing F105304 and 42 the
file F105304_photo.jpg is copied and unrelated.jpg is not, and with match
set containing only 42 the file 42.pdf is copied, its whole
extension-stripped name being in the set. -/
theorem copy_files_match_iff :
    (∀ (listing : List (String × Bool)) (destPrior : Option (List String))
        (pid : String) (m : List String) (name : String),
      name ∈ (copy_files listing destPrior pid m).dest ↔
        ((name, true) ∈ listing ∧
          ((∃ tok ∈ reSplitSeps (splitextRoot name), tok ∈ m) ∨
            splitextRoot name ∈ m))) ∧
    (copy_files [("F105304_photo.jpg", true), ("unrelated.jpg", true)] none "7"
        ["F105304", "42"]).dest = ["F105304_photo.jpg"] ∧
    (copy_files [("42.pdf", true)] none "7" ["42"]).dest = ["42.pdf"] ∧
    splitextRoot "42.pdf" ∈ ["42"] := by
  refine ⟨?_, by decide, by decide, by decide⟩
  intro listing destPrior pid m name
  unfold copy_files
  cases destPrior with
  | none =>
    rw [copyLoop_dest]
    simp only [List.nil_append, List.mem_map, List.mem_filter]
    constructor
    · rintro ⟨⟨en, eb⟩, ⟨hmem, hpred⟩, rfl⟩
      rw [Bool.and_eq_true] at hpred
      have hb : eb = true := hpred.1
      subst hb
      exact ⟨hmem, (fileMatch_iff _ m).mp hpred.2⟩
    · rintro ⟨hmem, hcond⟩
      exact ⟨(name, true), ⟨hmem, by simp [(fileMatch_iff name m).mpr hcond]⟩, rfl⟩
  | some prior =>
    rw [copyLoop_dest]
    simp only [List.nil_append, List.mem_map, List.mem_filter]
    constructor
    · rintro ⟨⟨en, eb⟩, ⟨hmem, hpred⟩, rfl⟩
      rw [Bool.and_eq_true] at hpred
      have hb : eb = true := hpred.1
      subst hb
      exact ⟨hmem, (fileMatch_iff _ m).mp hpred.2⟩
    · rintro ⟨hmem, hcond⟩
      exact ⟨(name, true), ⟨hmem, by simp [(fileMatch_iff name m).mpr hcond]⟩, rfl⟩

/-- C8: the destination directory is wiped and recreated empty before the
scan, so after a run it holds exactly the names of the regular files copied
during that run: the result is independent of any prior destination
contents, and everything in the destination came from a matching regular
file of this run's source listing. -/
theorem copy_files_fresh_destination :
    ∀ (listing : List (String × Bool)) (destPrior destPrior2 : Option (List String))
      (pid : String) (m : List String),
      (copy_files listing destPrior pid m).dest =
        (listing.filter (fun e => e.2 && fileMatch e.1 m)).map Prod.fst ∧
      copy_files listing destPrior pid m = copy_files listing destPrior2 pid m ∧
      ∀ x ∈ (copy_files listing destPrior pid m).dest,
        (x, true) ∈ listing ∧ fileMatch x m = true := by
  intro listing destPrior destPrior2 pid m
  have hdest : ∀ (dp : Option (List String)),
      (copy_files listing dp pid m).dest =
        (listing.filter (fun e => e.2 && fileMatch e.1 m)).map Prod.fst := by
    intro dp
    unfold copy_files
    cases dp with
    | none => rw [copyLoop_dest]; simp
    | some prior => rw [copyLoop_dest]; simp
  refine ⟨hdest destPrior, ?_, ?_⟩
  · unfold copy_files
    cases destPrior <;> cases destPrior2 <;> rfl
  · intro x hx
    rw [hdest destPrior] at hx
    rw [List.mem_map] at hx
    obtain ⟨⟨en, eb⟩, he, rfl⟩ := hx
    rw [List.mem_filter, Bool.and_eq_true] at he
    have hb : eb = true := he.2.1
    subst hb
    exact ⟨he.1, he.2.2⟩

/-- C8 witness: with prior stray contents in the destination, the result
equals the run from a fresh destination and holds exactly this run's
matching file. -/
theorem copy_files_fresh_destination_witness :
    (copy_files [("a_1.txt", true), ("sub", false)] (some ["stray.txt"]) "9" ["1"]).dest =
      ["a_1.txt"] ∧
    copy_files [("a_1.txt", true), ("sub", false)] (some ["stray.txt"]) "9" ["1"] =
      copy_files [("a_1.txt", true), ("sub", false)] none "9" ["1"] ∧
    (("a_1.txt", true) ∈ [("a_1.txt", true), ("sub", false)] ∧
      fileMatch "a_1.txt" ["1"] = true) := by
  have h := copy_files_fresh_destination [("a_1.txt", true), ("sub", false)]
    (some ["stray.txt"]) none "9" ["1"]
  exact ⟨by decide, h.2.1, h.2.2 "a_1.txt" (by decide)⟩

/-- The index of the first occurrence of a string in a list (length of the
list when absent). -/
def firstIdx : List String → String → Nat
  | [], _ => 0
  | a :: t, x => if a = x then 0 else firstIdx t x + 1

/-- The canonical first-occurrence deduplication dropping empty strings:
the reference form the loop of extract_serial_ids is proved equal to. -/
def firstOcc : List String → List String
  | [] => []
  | i :: rest =>
    if i = "" then firstOcc rest
    else i :: (firstOcc rest).filter (fun x => decide (x ≠ i))

/-- Membership in firstOcc: present and non-empty. -/
theorem mem_firstOcc : ∀ (l : List String) (x : String),
    x ∈ firstOcc l ↔ x ∈ l ∧ x ≠ "" := by
  intro l
  induction l with
  | nil => intro x; simp [firstOcc]
  | cons i rest ih =>
    intro x
    unfold firstOcc
    by_cases hi : i = ""
    · subst hi
      rw [if_pos rfl, ih]
      constructor
      · rintro ⟨hx, hne⟩; exact ⟨by simp [hx], hne⟩
      · rintro ⟨hx, hne⟩
        rcases List.mem_cons.mp hx with rfl | hx
        · exact absurd rfl hne
        · exact ⟨hx, hne⟩
    · rw [if_neg hi]
      rw [List.mem_cons, List.mem_filter, ih]
      constructor
      · rintro (rfl | ⟨⟨hx, hne⟩, _⟩)
        · exact ⟨by simp, hi⟩
        · exact ⟨by simp [hx], hne⟩
      · rintro ⟨hx, hne⟩
        rcases List.mem_cons.mp hx with rfl | hx
        · exact Or.inl rfl
        · by_cases hxi : x = i
          · exact Or.inl hxi
          · exact Or.inr ⟨⟨hx, hne⟩, by simp [hxi]⟩

/-- firstOcc has no duplicates. -/
theorem nodup_firstOcc : ∀ (l : List String), (firstOcc l).Nodup := by
  intro l
  induction l with
  | nil => simp [firstOcc]
  | cons i rest ih =>
    unfold firstOcc
    by_cases hi : i = ""
    · rw [if_pos hi]; exact ih
    · rw [if_neg hi]
      refine List.Pairwise.cons ?_ (List.Nodup.filter _ ih)
      intro b hb
      rw [List.mem_filter] at hb
      intro hbi
      subst hbi
      simp at hb

/-- firstOcc lists elements in increasing order of first occurrence. -/
theorem pairwise_firstOcc : ∀ (l : List String),
    (firstOcc l).Pairwise (fun a b => firstIdx l a < firstIdx l b) := by
  intro l
  induction l with
  | nil => simp [firstOcc]
  | cons i rest ih =>
    unfold firstOcc
    by_cases hi : i = ""
    · rw [if_pos hi]
      refine List.Pairwise.imp_of_mem ?_ ih
      intro a b ha hb hab
      have hane : a ≠ "" := ((mem_firstOcc rest a).mp ha).2
      have hbne : b ≠ "" := ((mem_firstOcc rest b).mp hb).2
      subst hi
      show (if ("" : String) = a then 0 else firstIdx rest a + 1) <
        (if ("" : String) = b then 0 else firstIdx rest b + 1)
      rw [if_neg (fun h => hane h.symm), if_neg (fun h => hbne h.symm)]
      omega
    · rw [if_neg hi]
      rw [List.pairwise_cons]
      constructor
      · intro b hb
        rw [List.mem_filter] at hb
        have hbi : b ≠ i := by
          have := hb.2; simp at this; exact this
        show (if i = i then 0 else firstIdx rest i + 1) <
          (if i = b then 0 else firstIdx rest b + 1)
        rw [if_pos rfl, if_neg (fun h => hbi h.symm)]
        omega
      · refine List.Pairwise.imp_of_mem ?_
          (List.Pairwise.sublist (List.filter_sublist _) ih)
        intro a b ha hb hab
        rw [List.mem_filter] at ha hb
        have hai : a ≠ i := by have := ha.2; simp at this; exact this
        have hbi : b ≠ i := by have := hb.2; simp at this; exact this
        show (if i = a then 0 else firstIdx rest a + 1) <
          (if i = b then 0 else firstIdx rest b + 1)
        rw [if_neg (fun h => hai h.symm), if_neg (fun h => hbi h.symm)]
        omega

/-- Two nested filters of non-membership and disequality combine into one
filter against the extended exclusion list. -/
theorem filter_not_mem_append (L out : List String) (i : String) :
    (L.filter (fun x => decide (x ≠ i))).filter (fun x => decide (x ∉ out)) =
      L.filter (fun x => decide (x ∉ out ++ [i])) := by
  rw [List.filter_filter]
  refine List.filter_congr ?_
  intro a _
  by_cases h1 : a = i <;> by_cases h2 : a ∈ out <;> simp [h1, h2]

/-- Filtering out an element already excluded by the non-membership filter
changes nothing. -/
theorem filter_ne_redundant (L out : List String) (i : String) (hi : i ∈ out) :
    (L.filter (fun x => decide (x ≠ i))).filter (fun x => decide (x ∉ out)) =
      L.filter (fun x => decide (x ∉ out)) := by
  rw [List.filter_filter]
  refine List.filter_congr ?_
  intro a _
  by_cases h1 : a = i
  · subst h1; simp [hi]
  · simp [h1]

/-- The dedup loop of extract_serial_ids computes firstOcc: with seen and
out holding the same strings, the loop appends to out the not-yet-seen part
of the canonical first-occurrence dedup. -/
theorem dedupLoop_eq_firstOcc : ∀ (l seen out : List String),
    (∀ x, x ∈ seen ↔ x ∈ out) →
    dedupLoop seen out l = out ++ (firstOcc l).filter (fun x => decide (x ∉ out)) := by
  intro l
  induction l with
  | nil => intro seen out _; simp [dedupLoop, firstOcc]
  | cons i rest ih =>
    intro seen out hso
    unfold dedupLoop firstOcc
    by_cases hi : i = ""
    · rw [if_neg (by simp [hi]), if_pos hi]
      exact ih seen out hso
    · by_cases hseen : i ∈ seen
      · rw [if_neg (by simp [hseen]), if_neg hi]
        rw [ih seen out hso]
        have hout : i ∈ out := (hso i).mp hseen
        rw [List.filter_cons_of_neg (by simp [hout])]
        rw [filter_ne_redundant _ out i hout]
      · rw [if_pos ⟨hi, hseen⟩, if_neg hi]
        have hout : i ∉ out := fun h => hseen ((hso i).mpr h)
        rw [ih (seen ++ [i]) (out ++ [i])
          (by intro x; simp [List.mem_append, hso x])]
        rw [List.filter_cons_of_pos (by simp [hout])]
        rw [filter_not_mem_append]
        simp

/-- C4: the output of extract_serial_ids has no duplicate strings, holds
exactly the non-empty strings of the raw per-record extraction sequence,
and lists them in strictly increasing order of their first occurrence in
that sequence. -/
theorem extract_serial_ids_nodup_order (items : List PyVal) :
    (extract_serial_ids items).Nodup ∧
    (∀ x, x ∈ extract_serial_ids items ↔ x ∈ rawIds items ∧ x ≠ "") ∧
    (extract_serial_ids items).Pairwise
      (fun a b => firstIdx (rawIds items) a < firstIdx (rawIds items) b) := by
  have heq : extract_serial_ids items = firstOcc (rawIds items) := by
    unfold extract_serial_ids
    rw [dedupLoop_eq_firstOcc (rawIds items) [] [] (by simp)]
    simp
  rw [heq]
  exact ⟨nodup_firstOcc _, mem_firstOcc _, pairwise_firstOcc _⟩

/-- C2 counterexample: a resource serving pages of sizes 100, 100, 37 under
limit 100 is fully fetched in three requests (offsets 0, 100 and 200),
returning the 237 items; the claimed fourth request does not happen,
because the short third page already ends pagination. -/
theorem fetch_all_pages_not_four_cex :
    (fetch_all_pages resp237 100 10 0).1 = [0, 100, 200] ∧
    ((fetch_all_pages resp237 100 10 0).1.length = 4 → False) ∧
    (fetch_all_pages resp237 100 10 0).2 =
      .ok (mkPage 0 100 ++ (mkPage 100 100 ++ mkPage 200 37)) := by
  refine ⟨by decide, by decide, by rfl⟩

/-- C2 amended: for every resource whose pages at offsets 0, 100, 200 have
sizes 100, 100 and 37 under limit 100 (successful responses), the
Paginated Fetcher issues exactly 3 requests, at offsets 0, 100 and 200 —
the short third page ends pagination, with no extra empty-page round
trip — and returns the 237 items in page order. -/
theorem fetch_all_pages_three_requests (respF : Nat → HttpResp)
    (p0 p1 p2 : List PyVal) (fuel : Nat)
    (h0 : respF 0 = ⟨200, .vList p0⟩) (h1 : respF 100 = ⟨200, .vList p1⟩)
    (h2 : respF 200 = ⟨200, .vList p2⟩)
    (hl0 : p0.length = 100) (hl1 : p1.length = 100) (hl2 : p2.length = 37) :
    fetch_all_pages respF 100 (fuel + 3) 0 =
      ([0, 100, 200], .ok (p0 ++ (p1 ++ p2))) ∧
    (p0 ++ (p1 ++ p2)).length = 237 := by
  have e2 : fetch_all_pages respF 100 (fuel + 1) 200 = ([200], .ok p2) := by
    rw [fetch_all_pages, h2]
    simp [extractItemsList, extract_items, hl2]
  have e1 : fetch_all_pages respF 100 (fuel + 2) 100 = ([100, 200], .ok (p1 ++ p2)) := by
    rw [fetch_all_pages, h1]
    simp only [extractItemsList, extract_items, hl1]
    norm_num
    rw [e2]
  constructor
  · rw [show fuel + 3 = (fuel + 2) + 1 from rfl]
    rw [fetch_all_pages, h0]
    simp only [extractItemsList, extract_items, hl0]
    norm_num
    rw [e1]
  · simp [hl0, hl1, hl2]

/-- C2 witness: the amended statement instantiated at the concrete
three-page resource. -/
theorem fetch_all_pages_three_requests_witness :
    (resp237 0 = ⟨200, .vList (mkPage 0 100)⟩ ∧
      resp237 100 = ⟨200, .vList (mkPage 100 100)⟩ ∧
      resp237 200 = ⟨200, .vList (mkPage 200 37)⟩ ∧
      (mkPage 0 100).length = 100 ∧ (mkPage 100 100).length = 100 ∧
      (mkPage 200 37).length = 37) ∧
    fetch_all_pages resp237 100 (7 + 3) 0 =
      ([0, 100, 200], .ok (mkPage 0 100 ++ (mkPage 100 100 ++ mkPage 200 37))) := by
  refine ⟨⟨rfl, rfl, rfl, rfl, rfl, rfl⟩, ?_⟩
  exact (fetch_all_pages_three_requests resp237 (mkPage 0 100) (mkPage 100 100)
    (mkPage 200 37) 7 rfl rfl rfl rfl rfl rfl).1

/-- C9 counterexample: fetch project 123, edit the entry to 456, then
copy: the copy runs with destination directory 456 but the match set built
by the fetch of project 123 — a match set left over from a fetch of a
different project is used for the copy. -/
theorem session_stale_matchset_cex :
    (runEvs envC ⟨"", none⟩ [.setEntry "123", .fetch, .setEntry "456", .copy]).2 =
      [⟨"456", "123", ["A1"]⟩] ∧ ("456" : String) ≠ "123" := by
  exact ⟨rfl, by decide⟩

/-- C9 amended: each completed fetch fully replaces the match set (never
merging with a previous one, whatever it was) with the set built for the
project in the entry at fetch time; a copy always reads the match set of
the most recent completed fetch, and the copy destination matches the
fetched project exactly when the entry is unchanged between the fetch and
the copy — in particular a copy immediately after a fetch uses that
fetch's project both as destination name and as match-set origin. -/
theorem session_fetch_replaces (env : String → List (List (String × PyVal)))
    (st : Session) (h : st.projectEntry ≠ "") :
    (stepEv env st .fetch).1.matchValues =
      some (st.projectEntry, buildMatchSet (env st.projectEntry)) ∧
    (∀ mv1 mv2 : Option (String × List String),
      (stepEv env { st with matchValues := mv1 } .fetch).1.matchValues =
        (stepEv env { st with matchValues := mv2 } .fetch).1.matchValues) ∧
    (∀ o : CopyObs, (stepEv env (stepEv env st .fetch).1 .copy).2 = some o →
      o.destPid = o.originPid ∧ o.destPid = st.projectEntry ∧
      o.matchSet = buildMatchSet (env st.projectEntry)) := by
  have hfetch : ∀ mv : Option (String × List String),
      (stepEv env { st with matchValues := mv } .fetch).1.matchValues =
        some (st.projectEntry, buildMatchSet (env st.projectEntry)) := by
    intro mv
    show (if st.projectEntry = "" then (({ st with matchValues := mv }, none) : Session × Option CopyObs) else _).1.matchValues = _
    rw [if_neg h]
  refine ⟨hfetch st.matchValues, fun mv1 mv2 => (hfetch mv1).trans (hfetch mv2).symm, ?_⟩
  intro o ho
  have hst1 : (stepEv env st .fetch).1 =
      (⟨st.projectEntry, some (st.projectEntry, buildMatchSet (env st.projectEntry))⟩ : Session) := by
    show (if st.projectEntry = "" then ((st, none) : Session × Option CopyObs) else _).1 = _
    rw [if_neg h]
  rw [hst1] at ho
  unfold stepEv at ho
  dsimp only at ho
  rw [if_neg h] at ho
  by_cases hbm : buildMatchSet (env st.projectEntry) = []
  · rw [if_pos hbm] at ho
    exact absurd ho (by simp)
  · rw [if_neg hbm] at ho
    injection ho with ho
    subst ho
    exact ⟨rfl, rfl, rfl⟩

/-- C9 amended witness: a fetch with entry 123 over a state holding a
stale match set from project 999 replaces the match set with the one built
for 123. -/
theorem session_fetch_replaces_witness :
    (("123" : String) ≠ "") ∧
    (stepEv envC ⟨"123", some ("999", ["OLD"])⟩ .fetch).1.matchValues =
      some ("123", buildMatchSet (envC "123")) := by
  exact ⟨by decide,
    (session_fetch_replaces envC ⟨"123", some ("999", ["OLD"])⟩ (by decide)).1⟩

end ProjectFileFetch
